import Mathlib

/-!
# Verification of the symetrix-control protocol engine

A shallow embedding of the command/response engine in `src/symetrix.js`
(class `Symetrix`) together with the command table of `src/api.js`
(`commands`, `buildCommandString`).  Strings are embedded as `List Char`;
JavaScript numbers appearing as control identifiers and values are
embedded as `Int` (all uses in the claims are integral); the regular
expressions of `api.js` are embedded by a small backtracking matcher
covering exactly the constructs those patterns use.  The single-threaded
event loop of node.js is embedded as a step function over an explicit
state, driven by a list of external events (incoming socket data, command
submission, the no-response timer firing, socket readiness changes).
-/

namespace Symx

/-- The named capture groups appearing in the `respRegex` patterns of
`src/api.js`: `ack`, `nak`, `ret` and `id` (the last one is called `gid`
here since `id` is the identity function in Lean).  A field is `none` when
the group did not participate in the match (JavaScript
`m.groups.x === undefined`) and `some cs` when it captured `cs`. -/
structure Groups where
  ack : Option (List Char) := none
  nak : Option (List Char) := none
  ret : Option (List Char) := none
  gid : Option (List Char) := none
  deriving DecidableEq, Repr

/-- Names of the capture groups used in `src/api.js`. -/
inductive GName where
  | ack : GName
  | nak : GName
  | ret : GName
  | gid : GName
  deriving DecidableEq, Repr

/-- Store a captured substring under a group name. -/
def setG (n : GName) (v : List Char) (g : Groups) : Groups :=
  match n with
  | .ack => { g with ack := some v }
  | .nak => { g with nak := some v }
  | .ret => { g with ret := some v }
  | .gid => { g with gid := some v }

/-- The regular-expression dialect actually used by the `respRegex`
patterns in `src/api.js`: literal characters, `\d` (also with greedy
counted repetition `\d{lo,hi}` and `\d+`), `\s`, greedy `.*`, sequencing,
alternation and named capture groups. -/
inductive Rx where
  | eps : Rx
  | lit : Char → Rx
  | digit : Rx
  | space : Rx
  | dotStar : Rx
  | digitPlus : Rx
  | digitRep : Nat → Nat → Rx
  | seq : Rx → Rx → Rx
  | alt : Rx → Rx → Rx
  | group : GName → Rx → Rx
  deriving DecidableEq, Repr

/-- JavaScript `\d`. -/
def isDigitCh (c : Char) : Bool := '0' ≤ c && c ≤ '9'

/-- JavaScript `\s`, restricted to the ASCII whitespace characters (the
wire protocol is ASCII); crucially it matches the frame terminator
`'\r'`. -/
def isSpaceCh (c : Char) : Bool :=
  c = ' ' || c = '\t' || c = '\n' || c = '\r' || c = '\x0b' || c = '\x0c'

/-- JavaScript `.` without the `s` flag: any character except a line
terminator (for the ASCII wire protocol: except `'\r'` and `'\n'`). -/
def isDotCh (c : Char) : Bool := c ≠ '\r' && c ≠ '\n'

/-- Greedy `.*` with backtracking, in continuation-passing style: first
try to consume one more `.`-character, only then try stopping here. -/
def dotStarRun (k : List Char → Groups → Option (List Char × Groups)) :
    List Char → Groups → Option (List Char × Groups)
  | [], g => k [] g
  | c :: t, g =>
    if isDotCh c then
      match dotStarRun k t g with
      | some r => some r
      | none => k (c :: t) g
    else k (c :: t) g

/-- Greedy `\d*` with backtracking (used to build `\d+`). -/
def digitStarRun (k : List Char → Groups → Option (List Char × Groups)) :
    List Char → Groups → Option (List Char × Groups)
  | [], g => k [] g
  | c :: t, g =>
    if isDigitCh c then
      match digitStarRun k t g with
      | some r => some r
      | none => k (c :: t) g
    else k (c :: t) g

/-- Consume exactly `n` digit characters. -/
def takeDigits : Nat → List Char → Option (List Char)
  | 0, s => some s
  | _ + 1, [] => none
  | n + 1, c :: t => if isDigitCh c then takeDigits n t else none

/-- Greedy counted repetition `\d{lo,hi}`: try `j = hi` digits first,
backtracking down to `lo` (`takeDigits 0 s = some s`, so the `0` case is
just the continuation). -/
def repTry (lo : Nat) (s : List Char) (g : Groups)
    (k : List Char → Groups → Option (List Char × Groups)) :
    Nat → Option (List Char × Groups)
  | 0 => if 0 < lo then none else k s g
  | j + 1 =>
    if j + 1 < lo then none
    else
      match (match takeDigits (j + 1) s with
             | some t => k t g
             | none => none) with
      | some r => some r
      | none => repTry lo s g k j

/-- The backtracking matcher: `mrun r s g k` tries to match `r` against a
prefix of `s` (with accumulated groups `g`) and calls the continuation
`k` on the remaining suffix; alternation prefers its left branch and the
starred forms are greedy, as in the JavaScript engine. -/
def mrun : Rx → List Char → Groups →
    (List Char → Groups → Option (List Char × Groups)) →
    Option (List Char × Groups)
  | .eps, s, g, k => k s g
  | .lit c, s, g, k =>
    match s with
    | [] => none
    | c' :: t => if c' = c then k t g else none
  | .digit, s, g, k =>
    match s with
    | [] => none
    | c :: t => if isDigitCh c then k t g else none
  | .space, s, g, k =>
    match s with
    | [] => none
    | c :: t => if isSpaceCh c then k t g else none
  | .dotStar, s, g, k => dotStarRun k s g
  | .digitPlus, s, g, k =>
    match s with
    | [] => none
    | c :: t => if isDigitCh c then digitStarRun k t g else none
  | .digitRep lo hi, s, g, k => repTry lo s g k hi
  | .seq a b, s, g, k => mrun a s g (fun t g' => mrun b t g' k)
  | .alt a b, s, g, k =>
    match mrun a s g k with
    | some r => some r
    | none => mrun b s g k
  | .group n r, s, g, k =>
    mrun r s g (fun t g' => k t (setG n (s.take (s.length - t.length)) g'))

/-- Match `r` at the start of `s` (unanchored on the right, as a
JavaScript regex is); returns the length of the match and the groups. -/
def matchAt (r : Rx) (s : List Char) : Option (Nat × Groups) :=
  match mrun r s {} (fun t g => some (t, g)) with
  | some (t, g) => some (s.length - t.length, g)
  | none => none

/-- Leftmost match: scan positions left to right, returning the first
position at which `r` matches, together with the match length and the
groups (JavaScript `String.prototype.search` / non-global `match`). -/
def rxSearch (r : Rx) : List Char → Option (Nat × Nat × Groups)
  | [] =>
    match matchAt r [] with
    | some (len, g) => some (0, len, g)
    | none => none
  | c :: t =>
    match matchAt r (c :: t) with
    | some (len, g) => some (0, len, g)
    | none => (rxSearch r t).map (fun x => (x.1 + 1, x.2))

/-- JavaScript `data.search(regex)`: index of the first match, `none`
standing for the return value `-1`. -/
def jsSearch (r : Rx) (s : List Char) : Option Nat :=
  (rxSearch r s).map (fun x => x.1)

/-- Build a sequence of literal characters (a string literal inside a
pattern). -/
def strRx : List Char → Rx
  | [] => .eps
  | c :: t => .seq (.lit c) (strRx t)

/-! The `respRegex` patterns of the `commands` table in `src/api.js`. -/

/-- `(?<ack>ACK)|(?<nak>NAK)\s` — `controlSet`, `changeController`,
`loadPreset`, `setSystemString`, `flashUnit`, `pushState`, `pushRefresh`,
`pushClear`, `setPushInterval`, `setPushThreshold`. -/
def rxAckNak : Rx :=
  .alt (.group .ack (strRx "ACK".toList)) (.seq (.group .nak (strRx "NAK".toList)) .space)

/-- `\d{1,5} (?<ret>\d{1,5})` — `controlGet`. -/
def rxControlGet : Rx :=
  .seq (.digitRep 1 5) (.seq (.lit ' ') (.group .ret (.digitRep 1 5)))

/-- `GSB3 \d{5} \d{5}` — `controlGetBlock`. -/
def rxGSB3 : Rx :=
  .seq (strRx "GSB3 ".toList) (.seq (.digitRep 5 5) (.seq (.lit ' ') (.digitRep 5 5)))

/-- `(?<ret>\d+)` — `getPreset`. -/
def rxGetPreset : Rx := .group .ret .digitPlus

/-- `GSYSS (?<ret>.*)\s` — `getSystemString`. -/
def rxGetSystemString : Rx :=
  .seq (strRx "GSYSS ".toList) (.seq (.group .ret .dotStar) .space)

/-- `(?<ack>ACK)|(?<ret>\d{5})]` — `getPushEnabled`. -/
def rxGetPushEnabled : Rx :=
  .alt (.group .ack (strRx "ACK".toList)) (.seq (.group .ret (.digitRep 5 5)) (.lit ']'))

/-- `(?<ack>.*)` — `reboot`. -/
def rxReboot : Rx := .group .ack .dotStar

/-- `#(?<id>\d{5})=(?<ret>\d{5})` — the multi-record pattern of
`_parseMultiple` (`symetrix.js` line 149). -/
def rxMulti : Rx :=
  .seq (.lit '#')
    (.seq (.group .gid (.digitRep 5 5)) (.seq (.lit '=') (.group .ret (.digitRep 5 5))))

/-! ## The push/response disambiguator (`sock.on('data')`, lines 104-121)

```
const split = this._nextResponse ? data.search(this._nextResponse) : -1;
let pushData, respData;
if (split < 0) pushData = data;
else if (split === 0) respData = data;
else { pushData = data.slice(0, split); respData = data.slice(split); }
```
-/

/-- The three-way split of a complete frame into an optional push segment
and an optional response segment, exactly as computed by the `data`
handler from the in-flight expected pattern (`none` when no command is in
flight, in which case `split = -1`). -/
def classify (p : Option Rx) (data : List Char) :
    Option (List Char) × Option (List Char) :=
  match p with
  | none => (some data, none)
  | some r =>
    match jsSearch r data with
    | none => (some data, none)
    | some 0 => (none, some data)
    | some (k + 1) => (some (data.take (k + 1)), some (data.drop (k + 1)))

/-- `r` matches at offset `i` of `data`. -/
def matchesAt (r : Rx) (data : List Char) (i : Nat) : Bool :=
  (matchAt r (data.drop i)).isSome

/-- The first occurrence of pattern `r` in `data` is at offset `k`. -/
def firstOccAt (r : Rx) (data : List Char) (k : Nat) : Prop :=
  matchesAt r data k = true ∧ ∀ j < k, matchesAt r data j = false

/-- Characterization of the leftmost search: a successful search matches
at the reported offset and nothing matches earlier; a failed search means
nothing matches at any offset. -/
theorem rxSearch_spec (r : Rx) (s : List Char) :
    (rxSearch r s = none → ∀ j, matchesAt r s j = false) ∧
    (∀ i len g, rxSearch r s = some (i, len, g) →
      matchAt r (s.drop i) = some (len, g) ∧ ∀ j < i, matchesAt r s j = false) := by
  induction s with
  | nil =>
    constructor
    · intro h j
      simp only [rxSearch] at h
      simp only [matchesAt, List.drop_nil]
      cases hm : matchAt r [] with
      | none => simp
      | some v => obtain ⟨len, g⟩ := v; rw [hm] at h; cases h
    · intro i len g h
      simp only [rxSearch] at h
      cases hm : matchAt r [] with
      | none => rw [hm] at h; cases h
      | some v =>
        obtain ⟨len', g'⟩ := v
        rw [hm] at h
        cases h
        constructor
        · simpa using hm
        · omega
  | cons c t ih =>
    constructor
    · intro h j
      simp only [rxSearch] at h
      cases hm : matchAt r (c :: t) with
      | some v => obtain ⟨len, g⟩ := v; rw [hm] at h; cases h
      | none =>
        rw [hm] at h
        have hrec : rxSearch r t = none := by
          cases hr : rxSearch r t with
          | none => rfl
          | some x => rw [hr] at h; simp at h
        cases j with
        | zero => simpa [matchesAt] using hm
        | succ j' =>
          have := ih.1 hrec j'
          simpa [matchesAt] using this
    · intro i len g hsome
      simp only [rxSearch] at hsome
      cases hm : matchAt r (c :: t) with
      | some v =>
        obtain ⟨len', g'⟩ := v
        rw [hm] at hsome
        cases hsome
        constructor
        · simpa using hm
        · omega
      | none =>
        rw [hm] at hsome
        cases hrec : rxSearch r t with
        | none => rw [hrec] at hsome; cases hsome
        | some x =>
          rw [hrec] at hsome
          obtain ⟨i', len', g'⟩ := x
          simp only [Option.map_some'] at hsome
          cases hsome
          have := ih.2 _ _ _ hrec
          constructor
          · simpa [List.drop_succ_cons] using this.1
          · intro j hj
            cases j with
            | zero => simpa [matchesAt] using hm
            | succ j' =>
              have := this.2 j' (by omega)
              simpa [matchesAt] using this

/-- **C1** (disambiguation of pushes from responses).  For every complete
frame delivered with `p` the in-flight expected pattern (`none` when no
command is in flight): with no command in flight the whole frame is a
push segment; with a pattern that occurs nowhere the whole frame is a
push segment; with the first occurrence at offset 0 the whole frame is
the response segment and no push segment is produced; with the first
occurrence at a non-zero offset `k` the bytes before `k` form the push
segment and the bytes from `k` on form the response segment. -/
theorem disambiguation_split (p : Option Rx) (data : List Char) :
    (p = none → classify p data = (some data, none)) ∧
    (∀ r, p = some r → (∀ j, matchesAt r data j = false) →
      classify p data = (some data, none)) ∧
    (∀ r, p = some r → firstOccAt r data 0 →
      classify p data = (none, some data)) ∧
    (∀ r k, p = some r → 0 < k → firstOccAt r data k →
      classify p data = (some (data.take k), some (data.drop k))) := by
  refine ⟨fun h => by subst h; rfl, ?_, ?_, ?_⟩
  · intro r hp hnone
    subst hp
    simp only [classify]
    cases hs : rxSearch r data with
    | none => simp [jsSearch, hs]
    | some x =>
      exfalso
      obtain ⟨i', len, g⟩ := x
      have := ((rxSearch_spec r data).2 i' len g hs).1
      have h2 := hnone i'
      simp only [matchesAt] at h2
      rw [this] at h2
      cases h2
  · intro r hp hocc
    subst hp
    simp only [classify]
    cases hs : rxSearch r data with
    | none =>
      exfalso
      have := (rxSearch_spec r data).1 hs 0
      rw [hocc.1] at this
      cases this
    | some x =>
      obtain ⟨i', len, g⟩ := x
      have hspec := (rxSearch_spec r data).2 i' len g hs
      have hi0 : i' = 0 := by
        by_contra hne
        have : matchesAt r data 0 = false := hspec.2 0 (by omega)
        rw [hocc.1] at this
        cases this
      subst hi0
      simp [jsSearch, hs]
  · intro r k hp hk hocc
    subst hp
    simp only [classify]
    cases hs : rxSearch r data with
    | none =>
      exfalso
      have := (rxSearch_spec r data).1 hs k
      rw [hocc.1] at this
      cases this
    | some x =>
      obtain ⟨i', len, g⟩ := x
      have hspec := (rxSearch_spec r data).2 i' len g hs
      have hik : i' = k := by
        rcases Nat.lt_trichotomy i' k with h | h | h
        · exfalso
          have := hocc.2 i' h
          simp only [matchesAt] at this
          rw [hspec.1] at this
          cases this
        · exact h
        · exfalso
          have := hspec.2 k h
          rw [hocc.1] at this
          cases this
      cases k with
      | zero => omega
      | succ k2 =>
        subst hik
        simp [jsSearch, hs]

/-- Witness for `disambiguation_split`: the frame
`"#00001=00002\rACK \r"` with the ack/nak pattern in flight has its first
pattern occurrence at offset 13, so the first 13 bytes (a push record)
are split off as the push segment and the tail `"ACK \r"` is the response
segment. -/
theorem disambiguation_split_witness :
    classify (some rxAckNak) "#00001=00002\rACK \r".toList =
      (some "#00001=00002\r".toList, some "ACK \r".toList) := by
  have h := (disambiguation_split (some rxAckNak) "#00001=00002\rACK \r".toList).2.2.2
    rxAckNak 13 rfl (by omega) ⟨by decide, by decide⟩
  simpa using h

/-! ## The response parsers (`_parseMultiple`, `_parseSingle`) -/

/-- JavaScript `Number` applied to a string of decimal digits. -/
def digitsToNat (l : List Char) : Nat :=
  l.foldl (fun a c => a * 10 + (c.toNat - 48)) 0

/-- `[...data.matchAll(regex)]`: the ordered capture groups of all
leftmost, non-overlapping matches of `r` in `s`; after a match of length
`len` starting at `i` the scan resumes at `i + max len 1`, as the
JavaScript iterator does (an empty match advances by one). -/
def matchAllGroups (r : Rx) : List Char → List Groups
  | [] =>
    match matchAt r [] with
    | some (_, g) => [g]
    | none => []
  | c :: t =>
    match rxSearch r (c :: t) with
    | none => []
    | some (i, len, g) => g :: matchAllGroups r ((c :: t).drop (i + max len 1))
termination_by s => s.length
decreasing_by
  simp only [List.length_drop, List.length_cons]
  have h1 : 1 ≤ max len 1 := Nat.le_max_right _ _
  omega

/-- `_parseMultiple` (symetrix.js lines 148-155): collect every
`#(?<id>\d{5})=(?<ret>\d{5})` record as a `(Number id, Number ret)` pair,
in order of occurrence. -/
def parseMultiple (data : List Char) : List (Nat × Nat) :=
  (matchAllGroups rxMulti data).map
    (fun g => (digitsToNat (g.gid.getD []), digitsToNat (g.ret.getD [])))

/-- The value `_parseSingle` hands back: a captured scalar, `true`,
`false`, or `undefined` after logging the unknown-response
diagnostic. -/
inductive SingleResult where
  | scalar : List Char → SingleResult
  | ok : SingleResult
  | nok : SingleResult
  | unknown : SingleResult
  deriving DecidableEq, Repr

/-- JavaScript truthiness of `m.groups.x`: `undefined` and the empty
string are falsy, a non-empty captured string is truthy. -/
def jsTruthy (o : Option (List Char)) : Bool :=
  match o with
  | none => false
  | some l => !l.isEmpty

/-- `_parseSingle` (symetrix.js lines 157-167): match the response
segment against the in-flight pattern and cascade over the truthiness of
the `ret`, `ack`, `nak` captures; `none` models the `TypeError` thrown
when the segment does not match at all (`m` is `null`; unreachable from
the data handler, which only extracts a response segment where the
pattern matches). -/
def parseSingle (data : List Char) (r : Rx) : Option SingleResult :=
  match rxSearch r data with
  | none => none
  | some (_, _, g) =>
    some (if jsTruthy g.ret then .scalar (g.ret.getD [])
          else if jsTruthy g.ack then .ok
          else if jsTruthy g.nak then .nok
          else .unknown)

/-- JavaScript `data.indexOf('\r')`, with `none` for `-1`. -/
def idxOfCR : List Char → Option Nat
  | [] => none
  | c :: t => if c = '\r' then some 0 else (idxOfCR t).map (· + 1)

/-- The header strip of the GSB3 branch (symetrix.js line 132):
`respData.substring(respData.indexOf('\r') + 1)` — everything after the
first terminator, or the whole string when there is none (`indexOf`
returns `-1` and `substring(0)` is the identity). -/
def dropHeader (rd : List Char) : List Char :=
  match idxOfCR rd with
  | some i => rd.drop (i + 1)
  | none => rd

/-! ## The command sequencer (`Symetrix` instance state and handlers) -/

/-- The value passed to the in-flight completion callback as
`response`. -/
inductive RespVal where
  | multi : List (Nat × Nat) → RespVal
  | single : Option SingleResult → RespVal
  deriving DecidableEq, Repr

/-- One element of `_sendBuffer`: the object `{ command, regex, cb }`,
with the callback identified by the sequence number of its
submission. -/
structure Entry where
  cid : Nat
  regex : Rx
  cmd : List Char
  deriving DecidableEq, Repr

/-- The mutable instance state of class `Symetrix`, together with the
observable history needed to state the claims: `fired` records every
invocation of an in-flight completion callback (always with
`err = null`, as in the source, which never passes an error), `pushes`
every emitted `push` event, and `written` every `sock.write`.
`sockReady` is `true` when `sock.readyState` is `'open'` or
`'writeOnly'`; `timerArmed` is `true` while the `_noResponse` timeout is
pending; `nextId` numbers submissions in order. -/
structure SymState where
  recvBuffer : List Char
  sendBuffer : List Entry
  readyToSend : Bool
  nextResponse : Option Rx
  nextCb : Option Nat
  sockReady : Bool
  timerArmed : Bool
  nextId : Nat
  fired : List (Nat × RespVal)
  pushes : List (List (Nat × Nat))
  written : List (List Char)
  deriving DecidableEq, Repr

/-- The state set up by the constructor (lines 54-59); the socket is not
yet connected. -/
def init : SymState :=
  { recvBuffer := [], sendBuffer := [], readyToSend := true,
    nextResponse := none, nextCb := none, sockReady := false,
    timerArmed := false, nextId := 0, fired := [], pushes := [], written := [] }

/-- `_send` (lines 182-195): if the socket is ready, mark busy, record
the expected pattern and callback, write the command and arm the
no-response timer; otherwise only log `'Could not send to Symetrix.
Socket not ready.'` and leave every field untouched — the entry is
dropped. -/
def send (e : Entry) (s : SymState) : SymState :=
  if s.sockReady then
    { s with readyToSend := false, nextResponse := some e.regex,
             nextCb := some e.cid, written := s.written ++ [e.cmd],
             timerArmed := true }
  else s

/-- The `readyToSend` event handler (lines 61-68): clear the in-flight
slot; then dispatch the head of the queue, or mark the sequencer ready
when the queue is empty. -/
def onReadyToSend (s : SymState) : SymState :=
  match s.sendBuffer with
  | [] => { s with nextResponse := none, nextCb := none, readyToSend := true }
  | e :: t => send e { s with nextResponse := none, nextCb := none, sendBuffer := t }

/-- The body of `reqToSend` after the callback check (lines 175-176):
dispatch immediately when ready, otherwise append to `_sendBuffer`.  The
submission is labelled with the fresh sequence number `s.nextId`. -/
def submitCmd (r : Rx) (cmd : List Char) (s : SymState) : SymState :=
  if s.readyToSend then
    send { cid := s.nextId, regex := r, cmd := cmd } { s with nextId := s.nextId + 1 }
  else
    { s with nextId := s.nextId + 1,
             sendBuffer := s.sendBuffer ++ [{ cid := s.nextId, regex := r, cmd := cmd }] }

/-- `reqToSend` (lines 169-177): throw `'Callback is not a function'`
when `cb` is not a function — before reading or writing any instance
state — otherwise dispatch or enqueue.  The first component is the
thrown error. -/
def reqToSend (cbIsFunction : Bool) (r : Rx) (cmd : List Char) (s : SymState) :
    Option (List Char) × SymState :=
  if cbIsFunction then (none, submitCmd r cmd s)
  else (some "Callback is not a function".toList, s)

/-- The parse of a response segment (lines 128-136): strip the GSB3
header line and use the multi-record form when the segment starts with
`GSB3`, otherwise the single-record form against the in-flight
pattern. -/
def processResp (rd : List Char) (r : Rx) : RespVal :=
  if rd.take 4 = "GSB3".toList then .multi (parseMultiple (dropHeader rd))
  else .single (parseSingle rd r)

/-- The response branch of the data handler (lines 125-140): clear the
no-response timer, parse the response segment, invoke the in-flight
callback with the result (the source always passes `err = null`) and
emit `readyToSend`.  The `nextCb = none` case is unreachable from `step`
(a response segment is only extracted when an expected pattern, and with
it a callback, is recorded — part of the invariant proved below). -/
def respProcess (rd : List Char) (r : Rx) (s : SymState) : SymState :=
  match s.nextCb with
  | some cid =>
    onReadyToSend
      { s with timerArmed := false, fired := s.fired ++ [(cid, processResp rd r)] }
  | none => { s with timerArmed := false }

/-- Processing of one complete frame (lines 104-140): split it into push
and response segments with `classify`, emit the parsed push, then
process the response segment. -/
def processFrame (frame : List Char) (s : SymState) : SymState :=
  let seg := classify s.nextResponse frame
  let s2 := match seg.1 with
    | some pd => { s with pushes := s.pushes ++ [parseMultiple pd] }
    | none => s
  match seg.2, s2.nextResponse with
  | some rd, some r => respProcess rd r s2
  | _, _ => s2

/-- The `data` event handler (lines 92-141): buffer chunks until one
ends with the `'\r'` terminator; a chunk ending with the terminator
completes the frame `_recvBuffer ++ chunk`, resets the buffer and
processes the frame. -/
def onData (chunk : List Char) (s : SymState) : SymState :=
  if chunk.getLast? ≠ some '\r' then
    { s with recvBuffer := s.recvBuffer ++ chunk }
  else
    processFrame (s.recvBuffer ++ chunk) { s with recvBuffer := [] }

/-- The external events driving the engine: an incoming socket chunk, a
command submission (carrying its expected pattern and command text), the
no-response timer firing, and socket readiness changes. -/
inductive Ev where
  | data : List Char → Ev
  | submit : Rx → List Char → Ev
  | timeout : Ev
  | sockOpen : Ev
  | sockClose : Ev
  deriving DecidableEq, Repr

/-- One step of the single-threaded event loop.  A `timeout` event with
no timer pending is a no-op (a cleared `setTimeout` never fires); a
firing timer only emits `readyToSend` (line 190). -/
def step : Ev → SymState → SymState
  | .data c, s => onData c s
  | .submit r cmd, s => submitCmd r cmd s
  | .timeout, s =>
    if s.timerArmed then onReadyToSend { s with timerArmed := false } else s
  | .sockOpen, s => { s with sockReady := true }
  | .sockClose, s => { s with sockReady := false }

/-- Run a sequence of events. -/
def run (evs : List Ev) (s : SymState) : SymState :=
  evs.foldl (fun st e => step e st) s

/-- `_noResponseTimeout` (line 52): the no-response window in
milliseconds. -/
def noResponseTimeout : Nat := 2000

/-! ## Validation and the caller-facing operations -/

/-- `validRange` (lines 6-10), on integral JavaScript numbers (every use
in the claims is integral; the `typeof` guard is vacuous here). -/
def validRange (value low high : Int) : Bool := low ≤ value && value ≤ high

/-- `validControlId` (lines 12-14).  Note the lower bound `0` in the
source, against the documented domain 1-10000. -/
def validControlId (id : Int) : Bool := validRange id 0 10000

/-- `validControlValue` (lines 16-18). -/
def validControlValue (value : Int) : Bool := validRange value 0 65535

/-- `buildCommandString('controlSet', ...)` of `src/api.js`: the base
string `CS` with the two placeholders replaced by the decimal renderings
of `id` and `value`, prefixed by the quiet-mode marker `$q`, trimmed,
terminator appended. -/
def buildControlSet (id value : Int) : List Char :=
  "$q CS ".toList ++ (toString id).toList ++ [' '] ++ (toString value).toList ++ ['\r']

/-- `buildCommandString('controlGet', ...)`: base string `GS2`. -/
def buildControlGet (id : Int) : List Char :=
  "$q GS2 ".toList ++ (toString id).toList ++ ['\r']

/-- `controlSet(id, value)` (lines 205-215): the promise executor runs
synchronously; it calls `reject` on invalid input but — `reject` not
being followed by a `return` — falls through and builds and submits the
command regardless.  The first component records whether the promise was
rejected synchronously. -/
def controlSet (id value : Int) (s : SymState) : Bool × SymState :=
  (!(validControlId id && validControlValue value),
   submitCmd rxAckNak (buildControlSet id value) s)

/-- `controlGet(id)` (lines 241-250), same executor shape. -/
def controlGet (id : Int) (s : SymState) : Bool × SymState :=
  (!validControlId id, submitCmd rxControlGet (buildControlGet id) s)

/-! ## The sequencer invariant -/

/-- The submission numbers currently known to the sequencer, in the
order: completed (`fired`), in flight (`_nextCb`), queued
(`_sendBuffer`). -/
def ids (s : SymState) : List Nat :=
  s.fired.map Prod.fst ++ s.nextCb.toList ++ s.sendBuffer.map Entry.cid

/-- The sequencer invariant: submission numbers strictly increase along
`fired ++ in-flight ++ queue` (so they are pairwise distinct, at most
one command is in flight, and completions follow submission order), all
are below the next fresh number, a ready sequencer has an empty
in-flight slot, an empty queue and no pending timer, and the
expected-pattern and callback slots are occupied together. -/
def Inv (s : SymState) : Prop :=
  List.Pairwise (· < ·) (ids s) ∧
  (∀ i ∈ ids s, i < s.nextId) ∧
  (s.readyToSend = true → s.nextCb = none ∧ s.sendBuffer = [] ∧ s.timerArmed = false) ∧
  s.nextResponse.isSome = s.nextCb.isSome

theorem sub_mid {α : Type} (l1 l2 l3 : List α) :
    List.Sublist (l1 ++ l3) (l1 ++ (l2 ++ l3)) :=
  (List.sublist_append_right l2 l3).append_left l1

/-- Dropping the in-flight slot from `ids` yields a sublist. -/
theorem sub_ids (s : SymState) :
    List.Sublist (s.fired.map Prod.fst ++ s.sendBuffer.map Entry.cid) (ids s) := by
  have h := sub_mid (s.fired.map Prod.fst) s.nextCb.toList (s.sendBuffer.map Entry.cid)
  simp only [ids, List.append_assoc]
  exact h

theorem onReadyToSend_nil (s : SymState) (h : s.sendBuffer = []) :
    onReadyToSend s =
      { s with nextResponse := none, nextCb := none, readyToSend := true } := by
  unfold onReadyToSend
  rw [h]

theorem onReadyToSend_cons (s : SymState) (e : Entry) (t : List Entry)
    (h : s.sendBuffer = e :: t) :
    onReadyToSend s =
      send e { s with nextResponse := none, nextCb := none, sendBuffer := t } := by
  unfold onReadyToSend
  rw [h]

theorem send_ready (e : Entry) (s : SymState) (h : s.sockReady = true) :
    send e s = { s with readyToSend := false, nextResponse := some e.regex,
                        nextCb := some e.cid, written := s.written ++ [e.cmd],
                        timerArmed := true } := by
  simp [send, h]

theorem send_notReady (e : Entry) (s : SymState) (h : s.sockReady = false) :
    send e s = s := by
  simp [send, h]

/-- Emitting `readyToSend` restores the invariant from a state whose
`fired` and queue identifiers are well-formed (the in-flight slot is
discarded by the handler, so nothing is assumed about it). -/
theorem Inv_onReadyToSend (s : SymState)
    (h1 : List.Pairwise (· < ·) (s.fired.map Prod.fst ++ s.sendBuffer.map Entry.cid))
    (h2 : ∀ i ∈ s.fired.map Prod.fst ++ s.sendBuffer.map Entry.cid, i < s.nextId)
    (hready : s.readyToSend = false)
    (htimer : s.timerArmed = false) :
    Inv (onReadyToSend s) := by
  cases hb : s.sendBuffer with
  | nil =>
    rw [onReadyToSend_nil s hb]
    rw [hb] at h1 h2
    simp only [List.map_nil, List.append_nil] at h1 h2
    refine ⟨?_, ?_, ?_, by simp⟩
    · simpa [ids, hb] using h1
    · intro i hi
      exact h2 i (by simpa [ids, hb] using hi)
    · intro _
      exact ⟨rfl, by simpa using hb, by simpa using htimer⟩
  | cons e t =>
    rw [onReadyToSend_cons s e t hb]
    rw [hb] at h1 h2
    by_cases hsock : s.sockReady = true
    · rw [send_ready _ _ (by simpa using hsock)]
      refine ⟨?_, ?_, by simp, by simp⟩
      · simpa [ids] using h1
      · intro i hi
        exact h2 i (by simpa [ids] using hi)
    · rw [send_notReady _ _ (by simpa using hsock)]
      have hsub : List.Sublist (s.fired.map Prod.fst ++ t.map Entry.cid)
          (s.fired.map Prod.fst ++ (e :: t).map Entry.cid) :=
        sub_mid (s.fired.map Prod.fst) [e.cid] (t.map Entry.cid)
      refine ⟨?_, ?_, by simp [hready], by simp⟩
      · simpa [ids] using h1.sublist hsub
      · intro i hi
        exact h2 i (hsub.subset (by simpa [ids] using hi))

/-- The invariant is preserved by every event. -/
theorem Inv_step (ev : Ev) (s : SymState) (h : Inv s) : Inv (step ev s) := by
  obtain ⟨h1, h2, h3, h4⟩ := h
  cases ev with
  | sockOpen =>
    exact ⟨by simpa [ids] using h1, by simpa [ids] using h2, by simpa using h3,
      by simpa using h4⟩
  | sockClose =>
    exact ⟨by simpa [ids] using h1, by simpa [ids] using h2, by simpa using h3,
      by simpa using h4⟩
  | timeout =>
    simp only [step]
    by_cases ht : s.timerArmed = true
    · rw [if_pos ht]
      have hready : s.readyToSend = false := by
        by_contra hr
        have := (h3 (by simpa using hr)).2.2
        rw [ht] at this
        cases this
      apply Inv_onReadyToSend
      · exact h1.sublist (sub_ids s)
      · intro i hi
        exact h2 i ((sub_ids s).subset hi)
      · exact hready
      · rfl
    · rw [if_neg ht]
      exact ⟨h1, h2, h3, h4⟩
  | submit r cmd =>
    simp only [step, submitCmd]
    by_cases hr : s.readyToSend = true
    · obtain ⟨hcb, hbuf, _⟩ := h3 hr
      rw [if_pos hr]
      by_cases hsock : s.sockReady = true
      · rw [send_ready _ _ (by simpa using hsock)]
        refine ⟨?_, ?_, by simp, by simp⟩
        · simp only [ids, hcb, hbuf] at h1 ⊢
          simp only [Option.toList_some, List.map_nil, List.append_nil] at h1 ⊢
          rw [List.pairwise_append]
          refine ⟨by simpa using h1, by simp, ?_⟩
          intro a ha b hb
          simp only [List.mem_singleton] at hb
          subst hb
          exact h2 a (by simp [ids, hcb, hbuf, ha])
        · intro i hi
          simp only [ids, hcb, hbuf] at hi
          simp only [Option.toList_some, List.map_nil, List.append_nil] at hi
          rcases List.mem_append.mp hi with hi' | hi'
          · have := h2 i (by simp [ids, hcb, hbuf, hi'])
            show i < s.nextId + 1
            omega
          · simp only [List.mem_singleton] at hi'
            show i < s.nextId + 1
            omega
      · rw [send_notReady _ _ (by simpa using hsock)]
        refine ⟨by simpa [ids] using h1, ?_, ?_, by simpa using h4⟩
        · intro i hi
          have := h2 i (by simpa [ids] using hi)
          show i < s.nextId + 1
          omega
        · intro hr'
          simp only at hr'
          obtain ⟨a, b, c⟩ := h3 hr'
          exact ⟨by simpa using a, by simpa using b, by simpa using c⟩
    · rw [if_neg hr]
      refine ⟨?_, ?_, by intro hr'; simp at hr'; exact absurd hr' hr, by simpa using h4⟩
      · simp only [ids, List.map_append, List.map_cons, List.map_nil] at h1 ⊢
        rw [← List.append_assoc]
        rw [List.pairwise_append]
        refine ⟨h1, by simp, ?_⟩
        intro a ha b hb
        simp only [List.mem_singleton] at hb
        subst hb
        exact h2 a (by simpa [ids] using ha)
      · intro i hi
        simp only [ids, List.map_append, List.map_cons, List.map_nil] at hi
        rw [← List.append_assoc] at hi
        rcases List.mem_append.mp hi with hi' | hi'
        · have := h2 i (by simpa [ids] using hi')
          show i < s.nextId + 1
          omega
        · simp only [List.mem_singleton] at hi'
          show i < s.nextId + 1
          omega
  | data chunk =>
    simp only [step, onData, processFrame]
    by_cases hc : chunk.getLast? = some '\r'
    · rw [if_neg (by simpa using hc)]
      cases hseg : classify s.nextResponse (s.recvBuffer ++ chunk) with
      | mk pd rd =>
        simp only [hseg]
        cases pd with
        | none =>
          cases rd with
          | none => exact ⟨by simpa [ids] using h1, by simpa [ids] using h2,
              by simpa using h3, by simpa using h4⟩
          | some rd' =>
            cases hnr : s.nextResponse with
            | none =>
              exact ⟨by simpa [ids] using h1, by simpa [ids] using h2,
                by simpa using h3, by rw [hnr] at h4; simpa using h4⟩
            | some r =>
              simp only [respProcess]
              cases hcb : s.nextCb with
              | none =>
                exfalso
                rw [hnr, hcb] at h4
                simp at h4
              | some cid =>
                have hready : s.readyToSend = false := by
                  by_contra hr
                  have := (h3 (by simpa using hr)).1
                  rw [hcb] at this
                  cases this
                apply Inv_onReadyToSend
                · simp only [ids, hcb, Option.toList_some] at h1
                  simpa using h1
                · intro i hi
                  apply h2
                  simp only [ids, hcb, Option.toList_some]
                  simpa [ids] using hi
                · simpa using hready
                · simp
        | some p =>
          cases rd with
          | none => exact ⟨by simpa [ids] using h1, by simpa [ids] using h2,
              by simpa using h3, by simpa using h4⟩
          | some rd' =>
            cases hnr : s.nextResponse with
            | none =>
              exact ⟨by simpa [ids] using h1, by simpa [ids] using h2,
                by simpa using h3, by rw [hnr] at h4; simpa using h4⟩
            | some r =>
              simp only [respProcess]
              cases hcb : s.nextCb with
              | none =>
                exfalso
                rw [hnr, hcb] at h4
                simp at h4
              | some cid =>
                have hready : s.readyToSend = false := by
                  by_contra hr
                  have := (h3 (by simpa using hr)).1
                  rw [hcb] at this
                  cases this
                apply Inv_onReadyToSend
                · simp only [ids, hcb, Option.toList_some] at h1
                  simpa using h1
                · intro i hi
                  apply h2
                  simp only [ids, hcb, Option.toList_some]
                  simpa [ids] using hi
                · simpa using hready
                · simp
    · rw [if_pos (by simpa using hc)]
      exact ⟨by simpa [ids] using h1, by simpa [ids] using h2, by simpa using h3,
        by simpa using h4⟩

theorem run_nil (s : SymState) : run [] s = s := rfl

theorem run_cons (e : Ev) (evs : List Ev) (s : SymState) :
    run (e :: evs) s = run evs (step e s) := rfl

theorem Inv_init : Inv init := by
  refine ⟨?_, ?_, ?_, ?_⟩ <;> simp [ids, init]

theorem Inv_run (evs : List Ev) (s : SymState) (h : Inv s) : Inv (run evs s) := by
  induction evs generalizing s with
  | nil => exact h
  | cons e t ih => exact ih _ (Inv_step e s h)

theorem nextId_send (e : Entry) (s : SymState) : (send e s).nextId = s.nextId := by
  by_cases hsock : s.sockReady = true
  · rw [send_ready _ _ (by simpa using hsock)]
  · rw [send_notReady _ _ (by simpa using hsock)]

theorem nextId_onReadyToSend (s : SymState) :
    (onReadyToSend s).nextId = s.nextId := by
  cases hb : s.sendBuffer with
  | nil => rw [onReadyToSend_nil s hb]
  | cons e t => rw [onReadyToSend_cons s e t hb, nextId_send]

/-- `nextId` never decreases. -/
theorem nextId_step (ev : Ev) (s : SymState) : s.nextId ≤ (step ev s).nextId := by
  cases ev with
  | sockOpen => exact Nat.le_refl _
  | sockClose => exact Nat.le_refl _
  | timeout =>
    simp only [step]
    by_cases ht : s.timerArmed = true
    · rw [if_pos ht, nextId_onReadyToSend]
    · rw [if_neg ht]
  | submit r cmd =>
    simp only [step, submitCmd]
    by_cases hr : s.readyToSend = true
    · rw [if_pos hr, nextId_send]
      exact Nat.le_succ _
    · rw [if_neg hr]
      exact Nat.le_succ _
  | data chunk =>
    simp only [step, onData, processFrame]
    by_cases hc : chunk.getLast? = some '\r'
    · rw [if_neg (by simpa using hc)]
      cases hseg : classify s.nextResponse (s.recvBuffer ++ chunk) with
      | mk pd rd =>
        simp only [hseg]
        cases pd <;> cases rd <;>
          first
            | exact Nat.le_refl _
            | (cases hnr : s.nextResponse with
               | none => exact Nat.le_refl _
               | some r =>
                 simp only [respProcess]
                 cases hcb : s.nextCb with
                 | none => exact Nat.le_refl _
                 | some cid => rw [nextId_onReadyToSend])
    · rw [if_pos (by simpa using hc)]

theorem mem_ids_onReadyToSend (s : SymState) (i : Nat)
    (h : i ∈ ids (onReadyToSend s)) :
    i ∈ s.fired.map Prod.fst ++ s.sendBuffer.map Entry.cid := by
  cases hb : s.sendBuffer with
  | nil =>
    rw [onReadyToSend_nil s hb] at h
    simp only [ids, hb] at h ⊢
    simp only [List.mem_append] at h ⊢
    tauto
  | cons e t =>
    rw [onReadyToSend_cons s e t hb] at h
    by_cases hsock : s.sockReady = true
    · rw [send_ready _ _ (by simpa using hsock)] at h
      simp only [ids] at h
      simp only [List.mem_append, List.map_cons, List.mem_cons] at h ⊢
      simp only [Option.toList_some, List.mem_singleton] at h
      tauto
    · rw [send_notReady _ _ (by simpa using hsock)] at h
      simp only [ids] at h
      simp only [List.mem_append, List.map_cons, List.mem_cons] at h ⊢
      simp only [Option.toList_none, List.not_mem_nil] at h
      tauto

/-- Every identifier present after a step was present before, or is the
step's fresh submission number. -/
theorem mem_ids_step (ev : Ev) (s : SymState) (i : Nat)
    (h : i ∈ ids (step ev s)) : i ∈ ids s ∨ i = s.nextId := by
  cases ev with
  | sockOpen => left; simpa [ids] using h
  | sockClose => left; simpa [ids] using h
  | timeout =>
    simp only [step] at h
    by_cases ht : s.timerArmed = true
    · rw [if_pos ht] at h
      have h3 := mem_ids_onReadyToSend { s with timerArmed := false } i h
      left
      exact (sub_ids s).subset h3
    · rw [if_neg ht] at h
      left
      exact h
  | submit r cmd =>
    simp only [step, submitCmd] at h
    by_cases hr : s.readyToSend = true
    · rw [if_pos hr] at h
      by_cases hsock : s.sockReady = true
      · rw [send_ready _ _ (by simpa using hsock)] at h
        simp only [ids, List.mem_append] at h ⊢
        simp only [Option.toList_some, List.mem_singleton] at h
        tauto
      · rw [send_notReady _ _ (by simpa using hsock)] at h
        left
        simpa [ids] using h
    · rw [if_neg hr] at h
      simp only [ids, List.mem_append, List.map_append, List.map_cons,
        List.map_nil, List.mem_cons, List.not_mem_nil] at h ⊢
      tauto
  | data chunk =>
    simp only [step, onData, processFrame] at h
    by_cases hc : chunk.getLast? = some '\r'
    · rw [if_neg (by simpa using hc)] at h
      cases hseg : classify s.nextResponse (s.recvBuffer ++ chunk) with
      | mk pd rd =>
        rw [hseg] at h
        cases pd with
        | none =>
          cases rd with
          | none => left; simpa [ids] using h
          | some rd' =>
            cases hnr : s.nextResponse with
            | none => rw [hnr] at h; left; simpa [ids] using h
            | some r =>
              rw [hnr] at h
              simp only [respProcess] at h
              cases hcb : s.nextCb with
              | none =>
                rw [hcb] at h
                left
                simp only [ids, List.mem_append] at h ⊢
                tauto
              | some cid =>
                rw [hcb] at h
                simp only at h
                have h2 := mem_ids_onReadyToSend _ i h
                left
                simp only [List.mem_append, List.map_append, List.map_cons,
                  List.map_nil, List.mem_cons, List.not_mem_nil,
                  List.mem_singleton] at h2
                simp only [ids, hcb, List.mem_append, Option.toList_some,
                  List.mem_singleton]
                tauto
        | some p =>
          cases rd with
          | none => left; simpa [ids] using h
          | some rd' =>
            cases hnr : s.nextResponse with
            | none => rw [hnr] at h; left; simpa [ids] using h
            | some r =>
              rw [hnr] at h
              simp only [respProcess] at h
              cases hcb : s.nextCb with
              | none =>
                rw [hcb] at h
                left
                simp only [ids, List.mem_append] at h ⊢
                tauto
              | some cid =>
                rw [hcb] at h
                simp only at h
                have h2 := mem_ids_onReadyToSend _ i h
                left
                simp only [List.mem_append, List.map_append, List.map_cons,
                  List.map_nil, List.mem_cons, List.not_mem_nil,
                  List.mem_singleton] at h2
                simp only [ids, hcb, List.mem_append, Option.toList_some,
                  List.mem_singleton]
                tauto
    · rw [if_pos (by simpa using hc)] at h
      left
      simpa [ids] using h

/-- A command that has been abandoned — it no longer appears anywhere in
the sequencer and its number is stale — never reappears; in particular
its completion callback never fires in any future. -/
theorem abandoned_run (evs : List Ev) (s : SymState) (i : Nat)
    (hni : i ∉ ids s) (hlt : i < s.nextId) :
    i ∉ ids (run evs s) ∧ i < (run evs s).nextId := by
  induction evs generalizing s with
  | nil => exact ⟨hni, hlt⟩
  | cons e t ih =>
    rw [run_cons]
    apply ih
    · intro hmem
      rcases mem_ids_step e s i hmem with h' | h'
      · exact hni h'
      · omega
    · have := nextId_step e s
      omega

theorem fired_sub_ids (s : SymState) (i : Nat)
    (h : i ∈ s.fired.map Prod.fst) : i ∈ ids s :=
  List.mem_append_left _ (List.mem_append_left _ h)

/-- **C2** (single flight and FIFO completion order).  In every
reachable state, completion callbacks have fired in strictly increasing
submission order — exactly submission order, never out of order, never
twice for the same command — and the single in-flight slot (`_nextCb`,
at most one command by the very shape of the state, mirroring the single
field of the source) holds a command that is neither queued nor already
completed. -/
theorem fifo_single_flight (evs : List Ev) :
    List.Pairwise (· < ·) ((run evs init).fired.map Prod.fst) ∧
    (∀ cid, (run evs init).nextCb = some cid →
      cid ∉ (run evs init).fired.map Prod.fst ∧
      cid ∉ (run evs init).sendBuffer.map Entry.cid) := by
  obtain ⟨h1, h2, h3, h4⟩ := Inv_run evs init Inv_init
  constructor
  · exact h1.sublist ((List.sublist_append_left _ _).trans (List.sublist_append_left _ _))
  · intro cid hcb
    have h1' := h1
    simp only [ids, hcb, Option.toList_some] at h1'
    rw [List.pairwise_append] at h1'
    obtain ⟨hl, _, hcross⟩ := h1'
    rw [List.pairwise_append] at hl
    obtain ⟨_, _, hfc⟩ := hl
    constructor
    · intro hmem
      have := hfc cid hmem cid (by simp)
      omega
    · intro hmem
      have := hcross cid (by simp) cid hmem
      omega

/-- Witness for `fifo_single_flight`: after connecting and submitting
two commands, command 0 is in flight and is neither completed nor
queued. -/
theorem fifo_single_flight_witness :
    0 ∉ (run [Ev.sockOpen, Ev.submit rxAckNak "$q FU\r".toList,
        Ev.submit rxAckNak "$q FU\r".toList] init).fired.map Prod.fst ∧
    0 ∉ (run [Ev.sockOpen, Ev.submit rxAckNak "$q FU\r".toList,
        Ev.submit rxAckNak "$q FU\r".toList] init).sendBuffer.map Entry.cid :=
  (fifo_single_flight [Ev.sockOpen, Ev.submit rxAckNak "$q FU\r".toList,
    Ev.submit rxAckNak "$q FU\r".toList]).2 0 rfl

/-- **C3** (timeout abandons the in-flight command and advances the
queue).  In any reachable state with the no-response timer pending and
command `cid` in flight: the timeout performs exactly the transition a
completed response performs except that no completion callback is
invoked (`fired` is left as it was); the abandoned command's callback
never fires in any future continuation, with any value; when the socket
is writable the next queued command (if any) is dequeued and dispatched,
and with an empty queue the sequencer returns to the ready (idle) state;
the window is the 2000 ms of `_noResponseTimeout`. -/
theorem timeout_abandons (evs evs2 : List Ev) (cid : Nat)
    (hT : (run evs init).timerArmed = true)
    (hC : (run evs init).nextCb = some cid) :
    (∀ rd r, step Ev.timeout (run evs init) =
      { respProcess rd r (run evs init) with fired := (run evs init).fired }) ∧
    cid ∉ (run evs2 (step Ev.timeout (run evs init))).fired.map Prod.fst ∧
    ((run evs init).sendBuffer = [] →
      (step Ev.timeout (run evs init)).readyToSend = true ∧
      (step Ev.timeout (run evs init)).nextCb = none) ∧
    (∀ e t, (run evs init).sendBuffer = e :: t → (run evs init).sockReady = true →
      (step Ev.timeout (run evs init)).nextCb = some e.cid ∧
      (step Ev.timeout (run evs init)).nextResponse = some e.regex ∧
      (step Ev.timeout (run evs init)).sendBuffer = t ∧
      (step Ev.timeout (run evs init)).timerArmed = true) ∧
    noResponseTimeout = 2000 := by
  obtain ⟨h1, h2, h3, h4⟩ := Inv_run evs init Inv_init
  refine ⟨?_, ?_, ?_, ?_, rfl⟩
  · intro rd r
    clear h1 h2 h3 h4
    revert hT hC
    obtain ⟨rb, sb, rts, nr, cb, sr, ta, ni, fi, pu, wr⟩ := run evs init
    intro hT hC
    simp only at hT hC
    subst hT
    subst hC
    cases sb with
    | nil =>
      by_cases hs : sr = true <;>
        simp [step, respProcess, onReadyToSend, send, hs]
    | cons e t =>
      by_cases hs : sr = true <;>
        simp [step, respProcess, onReadyToSend, send, hs]
  · have hnotin : cid ∉ ids (step Ev.timeout (run evs init)) := by
      intro hmem
      simp only [step, hT, if_true] at hmem
      have hin := mem_ids_onReadyToSend _ cid hmem
      have h1' := h1
      simp only [ids, hC, Option.toList_some] at h1'
      rw [List.pairwise_append] at h1'
      obtain ⟨hl, _, hcross⟩ := h1'
      rw [List.pairwise_append] at hl
      obtain ⟨_, _, hfc⟩ := hl
      rcases List.mem_append.mp hin with hmem' | hmem'
      · have := hfc cid hmem' cid (by simp)
        omega
      · have := hcross cid (by simp) cid hmem'
        omega
    have hlt : cid < (step Ev.timeout (run evs init)).nextId := by
      have hidm : cid ∈ ids (run evs init) := by
        simp [ids, hC]
      have := h2 cid hidm
      have hmono := nextId_step Ev.timeout (run evs init)
      omega
    intro hmem
    exact (abandoned_run evs2 _ cid hnotin hlt).1
      (fired_sub_ids _ cid hmem)
  · intro hb
    clear h1 h2 h3 h4
    revert hT hb
    obtain ⟨rb, sb, rts, nr, cb, sr, ta, ni, fi, pu, wr⟩ := run evs init
    intro hT hb
    simp only at hT hb
    subst hT
    subst hb
    simp [step, onReadyToSend]
  · intro e t hb hsock
    clear h1 h2 h3 h4
    revert hT hb hsock
    obtain ⟨rb, sb, rts, nr, cb, sr, ta, ni, fi, pu, wr⟩ := run evs init
    intro hT hb hsock
    simp only at hT hb hsock
    subst hT
    subst hb
    subst hsock
    simp [step, onReadyToSend, send]

/-- Witness for `timeout_abandons`: connect, submit one command (which
dispatches and arms the timer); the abandoned command 0 never fires. -/
theorem timeout_abandons_witness :
    0 ∉ (run [] (step Ev.timeout
      (run [Ev.sockOpen, Ev.submit rxAckNak "$q FU\r".toList] init))).fired.map Prod.fst :=
  (timeout_abandons [Ev.sockOpen, Ev.submit rxAckNak "$q FU\r".toList] [] 0 rfl rfl).2.1

/-- **C9 counterexample**.  A dispatch attempted while the socket is not
writable: from the fresh (not yet connected) state, submitting a command
leaves the whole state untouched except for the submission counter — the
command is dropped with only a console diagnostic.  In particular
`fired` and `written` stay empty and the command is recorded nowhere, so
no "not ready" condition is, or ever can be, surfaced to the caller's
completion handler (the source never invokes a callback with an error
anywhere). -/
theorem notReady_write_counterexample :
    run [Ev.submit rxAckNak "$q FU\r".toList] init = { init with nextId := 1 } ∧
    (run [Ev.submit rxAckNak "$q FU\r".toList] init).fired = [] ∧
    (run [Ev.submit rxAckNak "$q FU\r".toList] init).written = [] :=
  ⟨rfl, rfl, rfl⟩

/-- **C9 amended** (write while disconnected is dropped, queue order
preserved).  When the socket is not writable: a submission in the ready
state is dropped entirely (only the submission counter advances — the
command is neither queued, nor dispatched, nor completed); a submission
in the busy state is queued normally; and a queue-advance (here the
timeout path) dequeues the head, drops it with only a console
diagnostic, and leaves the remaining queue in its relative order
(`tail`), firing no callback and writing nothing. -/
theorem notReady_write_dropped (evs : List Ev) (r : Rx) (cmd : List Char)
    (h : (run evs init).sockReady = false) :
    ((run evs init).readyToSend = true →
      step (Ev.submit r cmd) (run evs init) =
        { run evs init with nextId := (run evs init).nextId + 1 }) ∧
    ((run evs init).readyToSend = false →
      step (Ev.submit r cmd) (run evs init) =
        { run evs init with
            nextId := (run evs init).nextId + 1,
            sendBuffer := (run evs init).sendBuffer ++
              [{ cid := (run evs init).nextId, regex := r, cmd := cmd }] }) ∧
    ((run evs init).timerArmed = true →
      (step Ev.timeout (run evs init)).sendBuffer = (run evs init).sendBuffer.tail ∧
      (step Ev.timeout (run evs init)).fired = (run evs init).fired ∧
      (step Ev.timeout (run evs init)).written = (run evs init).written) := by
  revert h
  obtain ⟨rb, sb, rts, nr, cb, sr, ta, ni, fi, pu, wr⟩ := run evs init
  intro h
  simp only at h
  subst h
  refine ⟨?_, ?_, ?_⟩
  · intro hr
    simp only at hr
    subst hr
    simp [step, submitCmd, send]
  · intro hr
    simp only at hr
    subst hr
    simp [step, submitCmd]
  · intro ht
    simp only at ht
    subst ht
    cases sb with
    | nil => simp [step, onReadyToSend]
    | cons e t => simp [step, onReadyToSend, send]

/-- Witness for `notReady_write_dropped`: submitting on the fresh,
disconnected state drops the command, advancing only the counter. -/
theorem notReady_write_dropped_witness :
    step (Ev.submit rxAckNak "$q FU\r".toList) init = { init with nextId := 1 } :=
  (notReady_write_dropped [] rxAckNak "$q FU\r".toList rfl).1 rfl

/-- **C10** (`reqToSend` guards the callback).  With a non-function
callback, `reqToSend` throws exactly `'Callback is not a function'` and
returns the state untouched: nothing is appended to `_sendBuffer`, the
ready flag, the in-flight slot and the socket write log are unchanged.
With a function callback it never throws. -/
theorem reqToSend_callback_guard (r : Rx) (cmd : List Char) (s : SymState) :
    reqToSend false r cmd s = (some "Callback is not a function".toList, s) ∧
    (reqToSend true r cmd s).1 = none :=
  ⟨rfl, rfl⟩

/-- A connected, idle sequencer (the state right after the `ready`
socket event on a fresh instance). -/
def readyInit : SymState := { init with sockReady := true }

/-- **C5** (evaluation at the failing input `controlSet(1, 70000)`).
The promise is rejected synchronously (`70000` is out of the 0-65535
value range), yet — the executor's `reject` not being followed by a
`return` — the command string `$q CS 1 70000\r` is still built,
submitted and written to the socket, and the in-flight slot is occupied
by the invalid command, contradicting "no command string is built,
enqueued, or written for the invalid call". -/
theorem controlSet_rejects_but_sends :
    controlSet 1 70000 readyInit =
      (true,
        { readyInit with
            readyToSend := false, nextResponse := some rxAckNak,
            nextCb := some 0, timerArmed := true, nextId := 1,
            written := ["$q CS 1 70000\r".toList] }) := by
  rfl

/-- **C6** (evaluation at the failing input `id = 0`).
`validControlId` is `validRange(id, 0, 10000)`, so the out-of-domain
identifier 0 passes validation and `controlGet(0)` is not rejected —
against the documented domain 1-10000. -/
theorem validControlId_zero_accepted :
    validControlId 0 = true ∧ (controlGet 0 readyInit).1 = false :=
  ⟨rfl, rfl⟩

/-! ## Frame reassembly (claim C4) -/

theorem onData_incomplete (c : List Char) (s : SymState)
    (h : c.getLast? ≠ some '\r') :
    onData c s = { s with recvBuffer := s.recvBuffer ++ c } := by
  unfold onData
  rw [if_pos h]

theorem recvBuffer_send (e : Entry) (s : SymState) :
    (send e s).recvBuffer = s.recvBuffer := by
  by_cases hsock : s.sockReady = true
  · rw [send_ready _ _ (by simpa using hsock)]
  · rw [send_notReady _ _ (by simpa using hsock)]

theorem recvBuffer_onReadyToSend (s : SymState) :
    (onReadyToSend s).recvBuffer = s.recvBuffer := by
  cases hb : s.sendBuffer with
  | nil => rw [onReadyToSend_nil s hb]
  | cons e t => rw [onReadyToSend_cons s e t hb, recvBuffer_send]

theorem recvBuffer_respProcess (rd : List Char) (r : Rx) (s : SymState) :
    (respProcess rd r s).recvBuffer = s.recvBuffer := by
  unfold respProcess
  cases hcb : s.nextCb with
  | none => rfl
  | some cid => rw [recvBuffer_onReadyToSend]

theorem recvBuffer_processFrame (frame : List Char) (s : SymState) :
    (processFrame frame s).recvBuffer = s.recvBuffer := by
  unfold processFrame
  cases hseg : classify s.nextResponse frame with
  | mk pd rd =>
    simp only
    cases pd with
    | none =>
      cases rd with
      | none => rfl
      | some rd2 =>
        cases hnr : s.nextResponse with
        | none => rfl
        | some r => rw [recvBuffer_respProcess]
    | some p =>
      cases rd with
      | none => rfl
      | some rd2 =>
        cases hnr : s.nextResponse with
        | none => rfl
        | some r => rw [recvBuffer_respProcess]

theorem recvBuffer_onData_complete (chunk : List Char) (s : SymState)
    (h : chunk.getLast? = some '\r') :
    (onData chunk s).recvBuffer = [] := by
  unfold onData
  rw [if_neg (by simp [h])]
  rw [recvBuffer_processFrame]

/-- Processing a terminator-ending chunk on top of a buffered fragment
is the same as processing the concatenation on an empty buffer: the
completed frame is the same string either way. -/
theorem onData_shift (c rest : List Char) (s : SymState)
    (hrest : rest.getLast? = some '\r') :
    onData rest { s with recvBuffer := s.recvBuffer ++ c } = onData (c ++ rest) s := by
  have hne : rest ≠ [] := by
    intro h
    rw [h] at hrest
    cases hrest
  have h2 : (c ++ rest).getLast? = some '\r' := by
    rw [List.getLast?_append_of_ne_nil c hne]
    exact hrest
  unfold onData
  rw [if_neg (by simp [hrest]), if_neg (by simp [h2])]
  show processFrame ((s.recvBuffer ++ c) ++ rest) { s with recvBuffer := [] } =
    processFrame (s.recvBuffer ++ (c ++ rest)) { s with recvBuffer := [] }
  rw [List.append_assoc]

/-- The last element of a concatenation whose final block is non-empty
ends as that final block ends. -/
theorem join_getLast (chunks : List (List Char)) (lc : List Char)
    (hl : chunks.getLast? = some lc) (hne : lc ≠ []) :
    chunks.flatten.getLast? = lc.getLast? := by
  induction chunks with
  | nil => cases hl
  | cons c cs ih =>
    cases cs with
    | nil =>
      simp only [List.getLast?_singleton, Option.some.injEq] at hl
      subst hl
      simp [List.flatten]
    | cons d ds =>
      have hl2 : (d :: ds).getLast? = some lc := by
        rw [List.getLast?_cons_cons] at hl
        exact hl
      have hj := ih hl2
      have hjoin_ne : (d :: ds).flatten ≠ [] := by
        intro hempty
        rw [hempty] at hj
        cases hlc : lc.getLast? with
        | none =>
          rw [List.getLast?_eq_none_iff] at hlc
          exact hne hlc
        | some x => rw [hlc] at hj; cases hj
      show (c ++ (d :: ds).flatten).getLast? = lc.getLast?
      rw [List.getLast?_append_of_ne_nil c hjoin_ne]
      exact hj

/-- **C4** (fragmentation idempotence).  For every way of delivering a
frame as `N` consecutive chunks of which only the last ends with the
terminator `'\r'`: every non-final chunk is only appended to the receive
buffer (producing no frame), and the resulting state — classification,
parses, callbacks, pushes and all — is identical to delivering the
whole frame in one chunk; afterwards the receive buffer is empty. -/
theorem fragmentation_idempotent (chunks : List (List Char)) (s : SymState)
    (h1 : ∀ c ∈ chunks.dropLast, c.getLast? ≠ some '\r')
    (h2 : chunks.getLast?.bind List.getLast? = some '\r') :
    run (chunks.map Ev.data) s = run [Ev.data chunks.flatten] s ∧
    (∀ c ∈ chunks.dropLast, onData c s = { s with recvBuffer := s.recvBuffer ++ c }) ∧
    (run (chunks.map Ev.data) s).recvBuffer = [] := by
  have hmain : ∀ (cs : List (List Char)) (s2 : SymState),
      (∀ c ∈ cs.dropLast, c.getLast? ≠ some '\r') →
      cs.getLast?.bind List.getLast? = some '\r' →
      run (cs.map Ev.data) s2 = onData cs.flatten s2 := by
    intro cs
    induction cs with
    | nil => intro s2 _ hl; cases hl
    | cons c cs2 ih =>
      intro s2 hnf hl
      cases cs2 with
      | nil =>
        show step (Ev.data c) s2 = onData (c :: []).flatten s2
        simp [step, List.flatten]
      | cons d ds =>
        have hc : c.getLast? ≠ some '\r' := hnf c (by simp)
        have hl2 : (d :: ds).getLast?.bind List.getLast? = some '\r' := by
          rw [List.getLast?_cons_cons] at hl
          exact hl
        have hnf2 : ∀ x ∈ (d :: ds).dropLast, x.getLast? ≠ some '\r' := by
          intro x hx
          apply hnf
          rw [List.dropLast_cons₂]
          exact List.mem_cons_of_mem c hx
        rw [List.map_cons, run_cons]
        have hstep : step (Ev.data c) s2 = { s2 with recvBuffer := s2.recvBuffer ++ c } := by
          show onData c s2 = _
          exact onData_incomplete c s2 hc
        rw [hstep, ih _ hnf2 hl2]
        show onData (d :: ds).flatten { s2 with recvBuffer := s2.recvBuffer ++ c } =
          onData (c ++ (d :: ds).flatten) s2
        apply onData_shift
        obtain ⟨lc, hlc, hlcr⟩ := Option.bind_eq_some.mp hl2
        rw [join_getLast (d :: ds) lc hlc (by intro hx; rw [hx] at hlcr; cases hlcr)]
        exact hlcr
  obtain ⟨lc, hlc, hlcr⟩ := Option.bind_eq_some.mp h2
  have hjoin : chunks.flatten.getLast? = some '\r' := by
    rw [join_getLast chunks lc hlc (by intro hx; rw [hx] at hlcr; cases hlcr)]
    exact hlcr
  refine ⟨?_, ?_, ?_⟩
  · rw [hmain chunks s h1 h2]
    rfl
  · intro c hc
    exact onData_incomplete c s (h1 c hc)
  · rw [hmain chunks s h1 h2]
    exact recvBuffer_onData_complete _ _ hjoin

/-- Witness for `fragmentation_idempotent`: the frame `"ACK \r"` split
as `"AC"` then `"K \r"` yields the same state as one-shot delivery. -/
theorem fragmentation_idempotent_witness :
    run (List.map Ev.data ["AC".toList, "K \r".toList]) init =
      run [Ev.data (List.flatten ["AC".toList, "K \r".toList])] init :=
  (fragmentation_idempotent ["AC".toList, "K \r".toList] init (by decide) (by decide)).1

/-! ## The single-record parse (claim C8) -/

theorem fired_onReadyToSend (s : SymState) :
    (onReadyToSend s).fired = s.fired := by
  cases hb : s.sendBuffer with
  | nil => rw [onReadyToSend_nil s hb]
  | cons e t =>
    rw [onReadyToSend_cons s e t hb]
    by_cases hsock : s.sockReady = true
    · rw [send_ready _ _ (by simpa using hsock)]
    · rw [send_notReady _ _ (by simpa using hsock)]

/-- A frame whose leftmost pattern match is at offset 0 is processed
entirely as the response segment: the timer is cleared, the in-flight
callback fires with the parsed value, and `readyToSend` is emitted. -/
theorem processFrame_resp (frame : List Char) (s : SymState) (r : Rx) (cid : Nat)
    (hnr : s.nextResponse = some r) (hcb : s.nextCb = some cid)
    (hsearch : jsSearch r frame = some 0) :
    processFrame frame s =
      onReadyToSend
        { s with timerArmed := false,
                 fired := s.fired ++ [(cid, processResp frame r)] } := by
  have hcl : classify s.nextResponse frame = (none, some frame) := by
    rw [hnr]
    unfold classify
    simp only [hsearch]
  unfold processFrame
  rw [hcl]
  simp only [hnr, respProcess, hcb]

/-- **C8 counterexample**.  The repository input `"GSYSS \r"` (an empty
system-string reply) matched against the `getSystemString` pattern
`GSYSS (?<ret>.*)\s` produces a match whose `ret` capture is present but
empty; `_parseSingle` then returns the logged `undefined` result instead
of the captured scalar `""`, because JavaScript truthiness treats the
empty string as absent. -/
theorem parseSingle_empty_capture :
    (rxSearch rxGetSystemString "GSYSS \r".toList).map (fun x => x.2.2.ret) =
      some (some []) ∧
    parseSingle "GSYSS \r".toList rxGetSystemString = some .unknown := by
  constructor
  · rfl
  · rfl

/-- **C8 amended** (single-record parse cascade, with JavaScript
truthiness).  For every response segment whose leftmost match against
the in-flight pattern yields groups `g`: a non-empty `ret` capture gives
that scalar; otherwise a non-empty `ack` capture gives `true`; otherwise
a non-empty `nak` capture gives `false`; an absent or empty capture is
skipped, and when all three are absent or empty the condition is logged
as a diagnostic and the result is `undefined` — non-fatal: the
in-flight command's completion handler still fires, with that
(possibly undefined) result. -/
theorem parseSingle_cascade (rd : List Char) (r : Rx) (len : Nat) (g : Groups)
    (hm : rxSearch r rd = some (0, len, g)) :
    (∀ rs, g.ret = some rs → rs ≠ [] → parseSingle rd r = some (.scalar rs)) ∧
    ((g.ret = none ∨ g.ret = some []) →
      ∀ as2, g.ack = some as2 → as2 ≠ [] → parseSingle rd r = some .ok) ∧
    ((g.ret = none ∨ g.ret = some []) → (g.ack = none ∨ g.ack = some []) →
      ∀ ns, g.nak = some ns → ns ≠ [] → parseSingle rd r = some .nok) ∧
    ((g.ret = none ∨ g.ret = some []) → (g.ack = none ∨ g.ack = some []) →
      (g.nak = none ∨ g.nak = some []) → parseSingle rd r = some .unknown) ∧
    (∀ (s : SymState) (cid : Nat), s.recvBuffer = [] → s.nextResponse = some r →
      s.nextCb = some cid → rd.getLast? = some '\r' → rd.take 4 ≠ "GSB3".toList →
      (onData rd s).fired = s.fired ++ [(cid, .single (parseSingle rd r))]) := by
  have hps : parseSingle rd r =
      some (if jsTruthy g.ret then .scalar (g.ret.getD [])
            else if jsTruthy g.ack then .ok
            else if jsTruthy g.nak then .nok
            else .unknown) := by
    unfold parseSingle
    rw [hm]
  have hempty : ∀ o : Option (List Char), (o = none ∨ o = some []) → jsTruthy o = false := by
    intro o ho
    rcases ho with ho | ho <;> subst ho <;> rfl
  have hfull : ∀ (l : List Char), l ≠ [] → jsTruthy (some l) = true := by
    intro l hl
    cases l with
    | nil => exact absurd rfl hl
    | cons a t => rfl
  refine ⟨?_, ?_, ?_, ?_, ?_⟩
  · intro rs hret hne
    rw [hps, hret]
    rw [hfull rs hne]
    simp [hret]
  · intro hret as2 hack hne
    rw [hps, hempty g.ret hret, hack, hfull as2 hne]
    rfl
  · intro hret hack ns hnak hne
    rw [hps, hempty g.ret hret, hempty g.ack hack, hnak, hfull ns hne]
    rfl
  · intro hret hack hnak
    rw [hps, hempty g.ret hret, hempty g.ack hack, hempty g.nak hnak]
    rfl
  · intro s cid h0 hnr hcb hcr hgsb
    unfold onData
    rw [if_neg (by simp [hcr])]
    rw [h0]
    rw [List.nil_append]
    rw [processFrame_resp rd { s with recvBuffer := [] } r cid (by simpa using hnr)
      (by simpa using hcb) (by simp [jsSearch, hm])]
    rw [fired_onReadyToSend]
    show s.fired ++ [(cid, processResp rd r)] = s.fired ++ [(cid, .single (parseSingle rd r))]
    rw [show processResp rd r = .single (parseSingle rd r) from by
      unfold processResp
      rw [if_neg hgsb]]

/-- Witness for `parseSingle_cascade`: the spec's scenario — a
scalar-get reply `"1000 04096\r"` parses to the captured scalar
`"04096"`. -/
theorem parseSingle_cascade_witness :
    parseSingle "1000 04096\r".toList rxControlGet =
      some (.scalar "04096".toList) :=
  (parseSingle_cascade "1000 04096\r".toList rxControlGet 10
    ⟨none, none, some "04096".toList, none⟩ (by decide)).1 "04096".toList rfl (by decide)

/-! ## The GSB3 block round-trip (claim C7)

The claim quantifies over frames of the wire shape
`GSB3 <echo> <size>\r` followed by `K` records `#<5 digits>=<5 digits>\r`.
`pad5`/`record5`/`body` build that family of inputs; they are input
constructions for the statement, not embeddings of repository code. -/

/-- The decimal digit character for `n < 10`. -/
def digitChar (n : Nat) : Char := Char.ofNat (48 + n)

/-- The 5-digit zero-padded decimal rendering of `n < 100000`. -/
def pad5 (n : Nat) : List Char :=
  [digitChar (n / 10000 % 10), digitChar (n / 1000 % 10), digitChar (n / 100 % 10),
   digitChar (n / 10 % 10), digitChar (n % 10)]

/-- One wire record `#<5-digit-id>=<5-digit-value>`. -/
def record5 (i v : Nat) : List Char := '#' :: (pad5 i ++ '=' :: pad5 v)

/-- The payload of a block reply: each record followed by the
terminator. -/
def body : List (Nat × Nat) → List Char
  | [] => []
  | p :: t => record5 p.1 p.2 ++ '\r' :: body t

theorem digitChar_isDigit (d : Nat) (h : d < 10) :
    isDigitCh (digitChar d) = true := by
  interval_cases d <;> decide

theorem digitChar_toNat (d : Nat) (h : d < 10) :
    (digitChar d).toNat = 48 + d := by
  interval_cases d <;> decide

theorem takeDigits_pad5 (n : Nat) (rest : List Char) :
    takeDigits 5 (pad5 n ++ rest) = some rest := by
  have h1 := digitChar_isDigit (n / 10000 % 10) (Nat.mod_lt _ (by norm_num))
  have h2 := digitChar_isDigit (n / 1000 % 10) (Nat.mod_lt _ (by norm_num))
  have h3 := digitChar_isDigit (n / 100 % 10) (Nat.mod_lt _ (by norm_num))
  have h4 := digitChar_isDigit (n / 10 % 10) (Nat.mod_lt _ (by norm_num))
  have h5 := digitChar_isDigit (n % 10) (Nat.mod_lt _ (by norm_num))
  simp [pad5, takeDigits, h1, h2, h3, h4, h5]

theorem digitsToNat_pad5 (n : Nat) (h : n < 100000) :
    digitsToNat (pad5 n) = n := by
  have h1 := digitChar_toNat (n / 10000 % 10) (Nat.mod_lt _ (by norm_num))
  have h2 := digitChar_toNat (n / 1000 % 10) (Nat.mod_lt _ (by norm_num))
  have h3 := digitChar_toNat (n / 100 % 10) (Nat.mod_lt _ (by norm_num))
  have h4 := digitChar_toNat (n / 10 % 10) (Nat.mod_lt _ (by norm_num))
  have h5 := digitChar_toNat (n % 10) (Nat.mod_lt _ (by norm_num))
  unfold digitsToNat pad5
  simp only [List.foldl_cons, List.foldl_nil, h1, h2, h3, h4, h5]
  omega

theorem take_len_append {α : Type} (l1 l2 : List α) :
    (l1 ++ l2).take l1.length = l1 := by simp

theorem drop_len_append {α : Type} (l1 l2 : List α) :
    (l1 ++ l2).drop l1.length = l2 := by simp

theorem repTry55 (s : List Char) (g : Groups)
    (k : List Char → Groups → Option (List Char × Groups)) :
    repTry 5 s g k 5 =
      match takeDigits 5 s with
      | some t => k t g
      | none => none := by
  cases htd : takeDigits 5 s with
  | none => simp [repTry, htd]
  | some t =>
    cases hk : k t g with
    | none => simp [repTry, htd, hk]
    | some v => simp [repTry, htd, hk]

theorem capture_pad5 (n : Nat) (l : List Char) :
    (pad5 n ++ l).take ((pad5 n ++ l).length - l.length) = pad5 n := by
  have hlen : (pad5 n ++ l).length - l.length = (pad5 n).length := by
    simp [pad5]
    omega
  rw [hlen]
  exact take_len_append _ _

theorem matchAt_record5 (i v : Nat) (rest : List Char) :
    matchAt rxMulti (record5 i v ++ rest) =
      some (12, { gid := some (pad5 i), ret := some (pad5 v) }) := by
  unfold matchAt rxMulti record5
  simp only [List.cons_append, List.append_assoc, List.cons_append]
  simp only [mrun, repTry55, takeDigits_pad5, setG, capture_pad5]
  simp [pad5]
  omega

theorem matchAt_rxMulti_nil : matchAt rxMulti [] = none := rfl

theorem matchAt_rxMulti_cons (c : Char) (s : List Char) (h : c ≠ '#') :
    matchAt rxMulti (c :: s) = none := by
  unfold matchAt rxMulti
  simp [mrun, h]

theorem rxSearch_record5 (i v : Nat) (rest : List Char) :
    rxSearch rxMulti (record5 i v ++ rest) =
      some (0, 12, { gid := some (pad5 i), ret := some (pad5 v) }) := by
  have hm := matchAt_record5 i v rest
  show rxSearch rxMulti ('#' :: ((pad5 i ++ '=' :: pad5 v) ++ rest)) = _
  unfold rxSearch
  rw [show ('#' :: ((pad5 i ++ '=' :: pad5 v) ++ rest)) = record5 i v ++ rest from rfl, hm]

theorem matchAllGroups_nil_rxMulti : matchAllGroups rxMulti [] = [] := by
  unfold matchAllGroups
  rw [matchAt_rxMulti_nil]

theorem rxSearch_rxMulti_nil : rxSearch rxMulti [] = none := by
  unfold rxSearch
  rw [matchAt_rxMulti_nil]

theorem rxSearch_cons_none (r : Rx) (c : Char) (t : List Char)
    (h : matchAt r (c :: t) = none) :
    rxSearch r (c :: t) = (rxSearch r t).map (fun x => (x.1 + 1, x.2)) := by
  conv_lhs => unfold rxSearch
  rw [h]

theorem matchAllGroups_skipCR (s : List Char) :
    matchAllGroups rxMulti ('\r' :: s) = matchAllGroups rxMulti s := by
  have hma : matchAt rxMulti ('\r' :: s) = none := matchAt_rxMulti_cons '\r' s (by decide)
  cases s with
  | nil =>
    unfold matchAllGroups
    rw [rxSearch_cons_none rxMulti '\r' [] hma, rxSearch_rxMulti_nil, matchAt_rxMulti_nil]
    rfl
  | cons c t =>
    show matchAllGroups rxMulti ('\r' :: c :: t) = matchAllGroups rxMulti (c :: t)
    conv_lhs => unfold matchAllGroups
    rw [rxSearch_cons_none rxMulti '\r' (c :: t) hma]
    cases hs : rxSearch rxMulti (c :: t) with
    | none =>
      conv_rhs => unfold matchAllGroups
      rw [hs]
      rfl
    | some x =>
      obtain ⟨i, len, g⟩ := x
      simp only [Option.map_some']
      conv_rhs => unfold matchAllGroups
      rw [hs]
      show g :: matchAllGroups rxMulti (List.drop (i + 1 + max len 1) ('\r' :: c :: t)) =
        g :: matchAllGroups rxMulti (List.drop (i + max len 1) (c :: t))
      rw [show i + 1 + max len 1 = (i + max len 1) + 1 from by omega]
      rw [List.drop_succ_cons]

theorem matchAllGroups_record (i v : Nat) (rest : List Char) :
    matchAllGroups rxMulti (record5 i v ++ '\r' :: rest) =
      ({ gid := some (pad5 i), ret := some (pad5 v) } : Groups) ::
        matchAllGroups rxMulti rest := by
  have hs := rxSearch_record5 i v ('\r' :: rest)
  show matchAllGroups rxMulti ('#' :: ((pad5 i ++ '=' :: pad5 v) ++ '\r' :: rest)) = _
  conv_lhs => unfold matchAllGroups
  rw [show ('#' :: ((pad5 i ++ '=' :: pad5 v) ++ '\r' :: rest)) =
    record5 i v ++ '\r' :: rest from rfl, hs]
  have hdrop : (record5 i v ++ '\r' :: rest).drop (0 + max 12 1) = '\r' :: rest := by
    have h12 : (0 + max 12 1) = (record5 i v).length := by
      simp [record5, pad5]
    rw [h12]
    exact drop_len_append _ _
  show ({ gid := some (pad5 i), ret := some (pad5 v) } : Groups) ::
      matchAllGroups rxMulti ((record5 i v ++ '\r' :: rest).drop (0 + max 12 1)) = _
  rw [hdrop, matchAllGroups_skipCR]

theorem matchAllGroups_body (ps : List (Nat × Nat)) :
    matchAllGroups rxMulti (body ps) =
      ps.map (fun p => ({ gid := some (pad5 p.1), ret := some (pad5 p.2) } : Groups)) := by
  induction ps with
  | nil => exact matchAllGroups_nil_rxMulti
  | cons p t ih =>
    show matchAllGroups rxMulti (record5 p.1 p.2 ++ '\r' :: body t) = _
    rw [matchAllGroups_record, ih]
    rfl

/-- `_parseMultiple` recovers every record of a block payload, as
numbers, in order. -/
theorem parseMultiple_body (ps : List (Nat × Nat))
    (h : ∀ p ∈ ps, p.1 < 100000 ∧ p.2 < 100000) :
    parseMultiple (body ps) = ps := by
  unfold parseMultiple
  rw [matchAllGroups_body, List.map_map]
  induction ps with
  | nil => rfl
  | cons p t ih =>
    rw [List.map_cons]
    have hp := h p (List.mem_cons_self p t)
    rw [ih (fun q hq => h q (List.mem_cons_of_mem p hq))]
    show (digitsToNat (pad5 p.1), digitsToNat (pad5 p.2)) :: t = p :: t
    rw [digitsToNat_pad5 p.1 hp.1, digitsToNat_pad5 p.2 hp.2]

theorem idxOfCR_append (l m : List Char) (h : '\r' ∉ l) :
    idxOfCR (l ++ '\r' :: m) = some l.length := by
  induction l with
  | nil => simp [idxOfCR]
  | cons c t ih =>
    have hc : c ≠ '\r' := by
      intro hx
      exact h (hx ▸ List.mem_cons_self c t)
    have ht : '\r' ∉ t := fun hx => h (List.mem_cons_of_mem c hx)
    simp [idxOfCR, hc, ih ht]

theorem dropHeader_strip (l m : List Char) (h : '\r' ∉ l) :
    dropHeader (l ++ '\r' :: m) = m := by
  unfold dropHeader
  rw [idxOfCR_append l m h]
  show List.drop (l.length + 1) (l ++ '\r' :: m) = m
  rw [show l ++ '\r' :: m = (l ++ ['\r']) ++ m from by simp]
  rw [show l.length + 1 = (l ++ ['\r']).length from by simp]
  exact drop_len_append _ _

/-- **C7** (GSB3 round-trip).  For every block-get response segment of
the wire shape `GSB3<echo>\r` followed by `K` records
`#<5-digit-id>=<5-digit-value>\r` (the header line containing no
terminator of its own): the data handler takes the GSB3 branch, the
header line up to and including its terminator is stripped before
multi-record parsing, and the parse yields exactly the `K` `(id, value)`
pairs, as numbers, in the order they occur in the frame. -/
theorem gsb3_block_roundtrip (hdr : List Char) (ps : List (Nat × Nat)) (r : Rx)
    (hh : '\r' ∉ hdr)
    (hv : ∀ p ∈ ps, p.1 < 100000 ∧ p.2 < 100000) :
    dropHeader (("GSB3".toList ++ hdr) ++ '\r' :: body ps) = body ps ∧
    processResp (("GSB3".toList ++ hdr) ++ '\r' :: body ps) r = .multi ps := by
  have hh2 : '\r' ∉ "GSB3".toList ++ hdr := by
    intro hx
    rcases List.mem_append.mp hx with hx | hx
    · simp at hx
    · exact hh hx
  have hstrip : dropHeader (("GSB3".toList ++ hdr) ++ '\r' :: body ps) = body ps :=
    dropHeader_strip _ _ hh2
  refine ⟨hstrip, ?_⟩
  unfold processResp
  have htake : ((("GSB3".toList ++ hdr) ++ '\r' :: body ps)).take 4 = "GSB3".toList := by
    rw [List.append_assoc]
    rw [show (4 : Nat) = ("GSB3".toList).length from rfl]
    exact take_len_append _ _
  rw [if_pos htake, hstrip, parseMultiple_body ps hv]

/-- Witness for `gsb3_block_roundtrip`: the headered frame
`GSB3 01000 00002\r#01000=04096\r#01001=00000\r` parses to exactly the
two pairs `(1000, 4096)` and `(1001, 0)`, in order, with the header line
discarded. -/
theorem gsb3_block_roundtrip_witness :
    dropHeader "GSB3 01000 00002\r#01000=04096\r#01001=00000\r".toList =
      "#01000=04096\r#01001=00000\r".toList ∧
    processResp "GSB3 01000 00002\r#01000=04096\r#01001=00000\r".toList rxGSB3 =
      .multi [(1000, 4096), (1001, 0)] :=
  gsb3_block_roundtrip " 01000 00002".toList [(1000, 4096), (1001, 0)] rxGSB3
    (by decide) (by decide)

end Symx
